import Mathlib

/-!
Shallow embedding of the go-wikigenre program (wikigenre.go) and proofs about
it.  Go machine types are modelled as follows: Go strings are Lean `String`
(the program only manipulates them at character granularity on ASCII data);
a Go `[]string` value that may be `nil` is `Option (List String)` (`none` is
the nil slice, which Go distinguishes from an empty one only by identity);
a Go `error` value is its message `String`; a fallible Go function returns
`Except`; a Go function that can panic returns `Option` with `none` standing
for the panic.  Network collaborators (goreq, goquery) are parameters of the
embedding, exactly at the boundary where the program calls them.
-/

set_option maxHeartbeats 1000000

deriving instance DecidableEq for Except

/-- Go error values, identified by their message. -/
abbrev GoError := String

/-- A Go `[]string` that may be nil: `none` is the nil slice. -/
abbrev GoSlice := Option (List String)

/-- Model of the `ErrNoGenres` error value of wikigenre.go line 20.  The
contraction of the Go message is spelled out here; only the identity of
the error value matters to the program. -/
def ErrNoGenres : GoError := "could not find any genres"

/-- The `artistAlbum` struct of wikigenre.go: artist, album and the raw
input form `both` used in diagnostics.  The Go map is keyed by the whole
struct, i.e. by all three fields. -/
structure artistAlbum where
  artist : String
  album : String
  both : String
deriving DecidableEq, Repr

/-- The zero value of the `artistAlbum` struct: the sentinel against which the scheduler
compares records (all three fields empty). -/
def aaEmpty : artistAlbum := ⟨"", "", ""⟩

/-- Test whether `sep` is a prefix of the second list (character-wise). -/
def isPrefixL : List Char → List Char → Bool
  | [], _ => true
  | _ :: _, [] => false
  | a :: as, b :: bs => a = b && isPrefixL as bs

/-- Leftmost occurrence of the (non-empty) separator `sep`: the characters
before it and the characters after it, or `none` when `sep` does not
occur. -/
def splitFirst (sep : List Char) : List Char → Option (List Char × List Char)
  | [] => none
  | c :: cs =>
    if isPrefixL sep (c :: cs) then some ([], (c :: cs).drop sep.length)
    else
      match splitFirst sep cs with
      | none => none
      | some (pre, post) => some (c :: pre, post)

/-- Go `strings.SplitN(s, sep, 2)` for the non-empty separator the program
uses (the literal " - "): split at the leftmost occurrence of `sep` only. -/
def splitN2 (sep s : String) : List String :=
  match splitFirst sep.data s.data with
  | none => [s]
  | some (pre, post) => [⟨pre⟩, ⟨post⟩]

/-- Model of `artistAlbumsFromCLI` of wikigenre.go: each argument is split once on
the literal " - "; with no separator the whole token is the album. -/
def artistAlbumsFromCLI (args : List String) : List artistAlbum :=
  args.map fun arg =>
    match splitN2 " - " arg with
    | [_] => ⟨"", arg, arg⟩
    | [x, y] => ⟨x, y, arg⟩
    | _ => ⟨"", "", arg⟩

/-- Model of `searchVariants` of wikigenre.go: the ordered fallback list of search
strings for one record. -/
def searchVariants (artist album : String) : List String :=
  (if artist ≠ "" ∧ album ≠ "" then [album ++ " (" ++ artist ++ " album)"] else [])
    ++ (if album ≠ "" then [album ++ " (album)", album] else [])
    ++ (if artist ≠ "" then [artist] else [])

/-! ## The search-service JSON boundary

`decodeSearchResponse` receives the body of the opensearch call decoded by
`FromJsonTo` into a slice of empty-interface values.  JSON values are modelled by `Json`; a
body that is not a JSON array (or not valid JSON at all) makes `FromJsonTo`
return an error, which the constructorless cases below produce. -/

/-- JSON values as seen through Go empty-interface type assertions. -/
inductive Json where
  | str (s : String)
  | arr (elems : List Json)
  | num (n : Int)
  | bool (b : Bool)
  | null

/-- Model of the `searchResponse` struct of wikigenre.go. -/
structure SearchResponse where
  Query : String
  Suggestions : List String
  Snippets : List String
  URIs : List String
deriving DecidableEq, Repr

/-- Run `f` over a list left to right, stopping at the first `none`: the
shape of every element-wise loop with early exit in the source. -/
def mapO {α β : Type} (f : α → Option β) : List α → Option (List β)
  | [] => some []
  | a :: t =>
    match f a with
    | none => none
    | some b =>
      match mapO f t with
      | none => none
      | some bs => some (b :: bs)

/-- Model of `interfaceToStringSlice` of wikigenre.go: assert a slice whose
elements are all strings; `none` is the `(nil, false)` return. -/
def interfaceToStringSlice (obj : Json) : Option (List String) :=
  match obj with
  | .arr slice => mapO (fun v => match v with | .str s => some s | _ => none) slice
  | _ => none

/-- Model of `decodeSearchResponse` of wikigenre.go.  The outer `Option` models
panics: indexing `jsonResp[k]` on a decoded array shorter than `k+1`
panics with index out of range, so such accesses yield `none`.  `Except`
carries the returned error: the `FromJsonTo` failure for non-array bodies,
or the `assertError` for elements of the wrong type.  Accesses happen in
source order 0,1,2,3, each type assertion before the next index. -/
def decodeSearchResponse (body : Json) : Option (Except GoError SearchResponse) :=
  match body with
  | .arr l =>
    match l.get? 0 with
    | none => none
    | some j0 =>
      match j0 with
      | .str query =>
        match l.get? 1 with
        | none => none
        | some j1 =>
          match interfaceToStringSlice j1 with
          | none => some (.error "unable to assert element 1")
          | some suggestions =>
            match l.get? 2 with
            | none => none
            | some j2 =>
              match interfaceToStringSlice j2 with
              | none => some (.error "unable to assert element 2")
              | some snippets =>
                match l.get? 3 with
                | none => none
                | some j3 =>
                  match interfaceToStringSlice j3 with
                  | none => some (.error "unable to assert element 3")
                  | some urls => some (.ok ⟨query, suggestions, snippets, urls⟩)
      | _ => some (.error "unable to assert element 0")
  | _ => some (.error "json cannot unmarshal body into slice")

/-- A JSON array of strings. -/
def jstrs (xs : List String) : Json := Json.arr (xs.map Json.str)

/-! ## The title-casing rule

`title` of wikigenre.go splits on single spaces (`strings.Split(s, " ")`,
embedded as `splitSp` on character lists), takes `part[0:1]` of each part —
which panics on an empty part — upper-cases it and re-joins.  `none` models
the panic. -/

/-- Go `strings.Split(s, " ")` on the character list: one part per gap,
`n` spaces give `n+1` parts, the empty string gives one empty part. -/
def splitSp : List Char → List (List Char)
  | [] => [[]]
  | c :: cs =>
    if c = ' ' then [] :: splitSp cs
    else
      match splitSp cs with
      | [] => [[c]]
      | p :: ps => (c :: p) :: ps

/-- Model of `strings.ToUpper(part[0:1]) + part[1:]` on one part; `none` is the
out-of-range panic of `part[0:1]` on an empty part. -/
def upFirst : List Char → Option (List Char)
  | [] => none
  | c :: rest => some (c.toUpper :: rest)

/-- Total version of `upFirst`, used to state what `title` computes on
parts that do not panic. -/
def upFirstTotal : List Char → List Char
  | [] => []
  | c :: rest => c.toUpper :: rest

/-- Model of `title` of wikigenre.go on the character list. -/
def titleL (l : List Char) : Option (List Char) :=
  (mapO upFirst (splitSp l)).map (List.intercalate [' '])

/-- Model of `title` of wikigenre.go; `none` models the panic on an empty part. -/
def title (s : String) : Option String :=
  (titleL s.data).map List.asString

/-! ## The genre scraper

The goquery selection engine is external; a fetched document is modelled by
the link texts the two `Find` patterns of `scrapeGenres` return, in document
order.  `scrapeGenres` applies `title` to each collected text
(`textFromSelection`), so a panic in `title` propagates. -/

/-- A parsed page as the scraper sees it: texts of links matching
`table.haudio td.category>a` (tier 1) and texts of links in the Genre row of
`table.infobox` (tier 2). -/
structure ScrapeDoc where
  tier1Texts : List String
  tier2Texts : List String
deriving DecidableEq, Repr

/-- Model of `scrapeGenres` of wikigenre.go: collect tier-1 texts through `title`;
if that yields nothing, collect tier-2 texts through `title`.  `none` is a
panic inside `title`. -/
def scrapeGenres (d : ScrapeDoc) : Option (List String) :=
  match mapO title d.tier1Texts with
  | none => none
  | some r1 => if 0 < r1.length then some r1 else mapO title d.tier2Texts

/-! ## The lookup pipeline

`searchWikipedia`, `wikipediaPage`, `albumGenres` and `AlbumGenres`,
parameterised by the network/parser collaborators. -/

/-- The part of a goreq response the program inspects: the HTTP status code
and, for the search call, the JSON the body decodes to.  A body that is not
valid JSON is represented by any non-array `Json` (both take the
`FromJsonTo`-error path). -/
structure NetResponse where
  statusCode : Int
  body : Json

/-- Model of `isResponseOK` of wikigenre.go. -/
def isResponseOK (r : NetResponse) : Bool :=
  ¬ (400 ≤ r.statusCode ∧ r.statusCode < 600)

/-- The external collaborators of the pipeline: the opensearch request, the
page request (both goreq `.Do`, `Except` for the transport error), goquery
document construction from a page response, and the document type scraping
runs on.  `scrape` returns `Option` because `scrapeGenres` can panic in
`title`. -/
structure Net (Doc : Type) where
  searchDo : String → Except GoError NetResponse
  pageDo : String → Except GoError NetResponse
  parse : NetResponse → Except GoError Doc
  scrape : Doc → Option (List String)

/-- Model of `searchWikipedia` of wikigenre.go: transport error, then the [400,600)
status check, then `decodeSearchResponse` (whose index-out-of-range panic
propagates as `none`). -/
def searchWikipedia {Doc : Type} (net : Net Doc) (query : String) :
    Option (Except GoError SearchResponse) :=
  match net.searchDo query with
  | .error e => some (.error e)
  | .ok resp =>
    if isResponseOK resp then decodeSearchResponse resp.body
    else some (.error ("search on Wikipedia failed, HTTP status " ++ toString resp.statusCode))

/-- Model of `wikipediaPage` of wikigenre.go: transport error, then the [400,600)
status check; on either failure it returns `(nil, err)`. -/
def wikipediaPage {Doc : Type} (net : Net Doc) (uri : String) :
    Except GoError NetResponse :=
  match net.pageDo uri with
  | .error e => .error e
  | .ok resp =>
    if isResponseOK resp then .ok resp
    else .error ("failed to open Wikipedia page " ++ uri ++ ", HTTP status " ++ toString resp.statusCode)

/-- Model of `albumGenres` of wikigenre.go for one search-query string.  Faithful to
the source, the error result of `wikipediaPage` is NOT checked: on a fetch
failure `resp` is nil and the immediately following `resp.Body` field access
panics — hence `none` on that branch.  An empty `URIs` list returns
`(nil, nil)`, i.e. an empty result and no error. -/
def albumGenres {Doc : Type} (net : Net Doc) (query : String) :
    Option (Except GoError (List String)) :=
  match searchWikipedia net query with
  | none => none
  | some (.error e) => some (.error e)
  | some (.ok searchResp) =>
    match searchResp.URIs with
    | [] => some (.ok [])
    | uri :: _ =>
      match wikipediaPage net uri with
      | .error _ => none
      | .ok resp =>
        match net.parse resp with
        | .error e => some (.error e)
        | .ok doc =>
          match net.scrape doc with
          | none => none
          | some gs => some (.ok gs)

/-- The variant loop of `AlbumGenres`, instrumented with the list of
variants on which `albumGenres` was actually invoked (second component).
The first component is exactly what the Go loop computes. -/
def albumGenresRun {Doc : Type} (net : Net Doc) :
    List String → Option (Except GoError (List String)) × List String
  | [] => (some (.error ErrNoGenres), [])
  | v :: vs =>
    match albumGenres net v with
    | none => (none, [v])
    | some (.error e) => (some (.error e), [v])
    | some (.ok gs) =>
      if 0 < gs.length then (some (.ok gs), [v])
      else
        let r := albumGenresRun net vs
        (r.1, v :: r.2)

/-- Model of `AlbumGenres` of wikigenre.go: iterate `searchVariants` in order, abort
on the first error, stop at the first non-empty genre list, `ErrNoGenres`
when the variants are exhausted. -/
def AlbumGenres {Doc : Type} (net : Net Doc) (artist album : String) :
    Option (Except GoError (List String)) :=
  (albumGenresRun net (searchVariants artist album)).1

/-- Model of `AlbumGenres` in the Go return convention of a slice and an error: every
error path of the source returns a nil slice.  `none` is a panic. -/
def AlbumGenresPure {Doc : Type} (net : Net Doc) (artist album : String) :
    Option (GoSlice × Option GoError) :=
  match AlbumGenres net artist album with
  | none => none
  | some (.ok gs) => some (some gs, none)
  | some (.error e) => some (none, some e)

/-! ## The concurrent resolution scheduler

`multipleAlbumGenres` launches one goroutine per input record.  The model is
a step relation on an explicit state; a schedule is the list of unit indices
the Go scheduler runs, each entry executing that unit up to its next
boundary.  Step granularity follows the lock structure of the source:

* `start → claimed/done` — the sentinel comparison (local data only) and the
  mutex-guarded test-and-set of lines 139-151 form one atomic step;
* `claimed → ran` — the `AlbumGenres` call outside the lock.  Its result
  depends only on the record and the (deterministic) collaborators, so it is
  local; the step only records the invocation in the ghost `calls` trace;
* `ran → done` — the error append of line 155 (atomic here: the source
  appends `errs` without the lock, a data race; this model is one
  linearisation of it) and the mutex-guarded result write of lines 157-159.

`calls` and `fins` are ghost traces (pipeline invocations, completed
writes); they influence no branch.  A `pipe` answer of `none` is a panic in
`AlbumGenres`, which kills the Go process: the unit (and hence the batch)
makes no further progress.  The program instantiates
`pipe := AlbumGenresPure net`. -/

/-- Program counter of one goroutine of `multipleAlbumGenres`. -/
inductive Phase where
  | start
  | claimed
  | ran (gs : GoSlice) (e : Option GoError)
  | done
deriving DecidableEq, Repr

/-- Holds for the phases between the map test-and-set and the result
write, i.e. while this unit owns the in-flight lookup for its key. -/
def Phase.inFlight : Phase → Bool
  | .claimed => true
  | .ran _ _ => true
  | _ => false

/-- Holds exactly for `Phase.claimed`. -/
def Phase.isClaimed : Phase → Bool
  | .claimed => true
  | _ => false

/-- Holds exactly for `Phase.ran`. -/
def Phase.isRan : Phase → Bool
  | .ran _ _ => true
  | _ => false

/-- Holds exactly for `Phase.done`. -/
def Phase.isDone : Phase → Bool
  | .done => true
  | _ => false

/-- One goroutine: its captured record `q` and its program counter. -/
structure UnitSt where
  q : artistAlbum
  ph : Phase
deriving DecidableEq, Repr

/-- The shared state of one batch: the goroutines, the
`uniqueArtistAlbumMap` resolution table (front-shadowing association list),
the shared `errs` collection, and the two ghost traces. -/
structure SchedSt where
  units : List UnitSt
  table : List (artistAlbum × GoSlice)
  errs : List GoError
  calls : List artistAlbum
  fins : List artistAlbum
deriving DecidableEq, Repr

/-- Go map read with presence flag: the first binding of `q`, scanning from
the front (later inserts shadow earlier ones). -/
def lookupA : List (artistAlbum × GoSlice) → artistAlbum → Option GoSlice
  | [], _ => none
  | (k, v) :: t, q => if k = q then some v else lookupA t q

/-- Go map write: a new front binding shadows any old one. -/
def insertA (k : artistAlbum) (v : GoSlice) (t : List (artistAlbum × GoSlice)) :
    List (artistAlbum × GoSlice) :=
  (k, v) :: t

/-- The abstract lookup pipeline in the Go return convention; `none` is a
panic inside `AlbumGenres`. -/
abbrev Pipe := String → String → Option (GoSlice × Option GoError)

/-- Model of the error-wrapping format of line 155 applied to the rawKey. -/
def wrapErr (both e : GoError) : GoError :=
  "error finding genres for " ++ both ++ ": " ++ e

/-- Run unit `i` to its next boundary (no-op on a finished unit, an invalid
index, or a panicking pipeline call — a panic kills the process). -/
def stepUnit (pipe : Pipe) (st : SchedSt) (i : Nat) : SchedSt :=
  match st.units.get? i with
  | none => st
  | some u =>
    match u.ph with
    | .start =>
      if u.q = aaEmpty then
        { st with units := st.units.set i { u with ph := .done } }
      else if (lookupA st.table u.q).isSome then
        { st with units := st.units.set i { u with ph := .done } }
      else
        { st with
            table := insertA u.q none st.table
            units := st.units.set i { u with ph := .claimed } }
    | .claimed =>
      match pipe u.q.artist u.q.album with
      | none => st
      | some (gs, e) =>
        { st with
            calls := st.calls ++ [u.q]
            units := st.units.set i { u with ph := .ran gs e } }
    | .ran gs e =>
      { st with
          errs := st.errs ++ (match e with
            | some er => [wrapErr u.q.both er]
            | none => [])
          table := insertA u.q gs st.table
          fins := st.fins ++ [u.q]
          units := st.units.set i { u with ph := .done } }
    | .done => st

/-- The batch state right after the `go` statements of lines 132-161. -/
def initSt (as : List artistAlbum) : SchedSt :=
  ⟨as.map (fun aa => ⟨aa, .start⟩), [], [], [], []⟩

/-- Execute a schedule. -/
def run (pipe : Pipe) (as : List artistAlbum) (sched : List Nat) : SchedSt :=
  sched.foldl (stepUnit pipe) (initSt as)

/-- Holds once the wait group has returned: every goroutine finished. -/
def allDone (st : SchedSt) : Bool :=
  st.units.all (fun u => u.ph.isDone)

/-- Model of `multipleAlbumGenres` of wikigenre.go under schedule `sched`: run the
units, then project the table back over the input order (lines 164-167; a
missing key reads as the nil slice) and return it with the error
collection. -/
def multipleAlbumGenres (pipe : Pipe) (as : List artistAlbum) (sched : List Nat) :
    List GoSlice × List GoError :=
  let fin := run pipe as sched
  (as.map (fun aa => (lookupA fin.table aa).getD none), fin.errs)

/-- The stdout loop of `main` (lines 55-60): one `Println` of the
"; "-joined list per non-nil entry; nil entries are skipped by the
`if g == nil { continue }` guard. -/
def outputLines : List GoSlice → List String
  | [] => []
  | none :: gs => outputLines gs
  | some g :: gs => String.intercalate "; " g :: outputLines gs

/-! ## Counters and the scheduler invariant -/

/-- Unit `u` holds key `q` and sits in the claimed phase. -/
def pcl (q : artistAlbum) (u : UnitSt) : Bool :=
  decide (u.q = q) && u.ph.isClaimed

/-- Unit `u` holds key `q` and sits in the ran phase. -/
def pra (q : artistAlbum) (u : UnitSt) : Bool :=
  decide (u.q = q) && u.ph.isRan

/-- Unit `u` holds key `q` and is in flight. -/
def pif (q : artistAlbum) (u : UnitSt) : Bool :=
  decide (u.q = q) && u.ph.inFlight

/-- Number of units holding key `q` in the claimed phase. -/
def cntC (st : SchedSt) (q : artistAlbum) : Nat := st.units.countP (pcl q)

/-- Number of units holding key `q` in the ran phase. -/
def cntR (st : SchedSt) (q : artistAlbum) : Nat := st.units.countP (pra q)

/-- Number of `AlbumGenres` invocations performed for key `q` so far (the
ghost `calls` trace counts one entry per pipeline execution). -/
def cntK (st : SchedSt) (q : artistAlbum) : Nat :=
  st.calls.countP (fun x => decide (x = q))

/-- Number of completed result writes for key `q` (ghost `fins` trace). -/
def cntF (st : SchedSt) (q : artistAlbum) : Nat :=
  st.fins.countP (fun x => decide (x = q))

/-- Key `q` is present in the resolution table. -/
def presentT (t : List (artistAlbum × GoSlice)) (q : artistAlbum) : Bool :=
  (lookupA t q).isSome

/-- The inductive invariant of the scheduler: unit keys mirror the input;
for every key, claimed units, ran units and completed writes balance the
table presence bit (hence at most one of them); pipeline invocations match
ran-or-finished units; present keys are non-sentinel input keys; finished
non-sentinel units left their key present. -/
structure SchedInv (as : List artistAlbum) (st : SchedSt) : Prop where
  keys : st.units.map UnitSt.q = as
  bal : ∀ q, cntC st q + cntR st q + cntF st q = if presentT st.table q then 1 else 0
  callsEq : ∀ q, cntK st q = cntR st q + cntF st q
  presentKeys : ∀ q, presentT st.table q = true → q ≠ aaEmpty ∧ q ∈ as
  donePresent : ∀ u ∈ st.units, u.ph.isDone = true → u.q ≠ aaEmpty →
    presentT st.table u.q = true

/-! ## Concrete collaborators used to exercise the model -/

/-- A collaborator that is never reached (every request fails). -/
def netTriv : Net Unit :=
  ⟨fun _ => .error "no network", fun _ => .error "no network",
   fun _ => .error "no parse", fun _ => none⟩

/-- Search succeeds with two result URIs; every page fetch answers
HTTP 404. -/
def net404 : Net Unit :=
  ⟨fun _ => .ok ⟨200, Json.arr [Json.str "q", jstrs [], jstrs [], jstrs ["u1", "u2"]]⟩,
   fun _ => .ok ⟨404, Json.null⟩,
   fun _ => .error "no parse", fun _ => none⟩

/-- Search succeeds but returns zero result URIs for every query. -/
def netEmptyURIs : Net Unit :=
  ⟨fun _ => .ok ⟨200, Json.arr [Json.str "q", jstrs [], jstrs [], jstrs []]⟩,
   fun _ => .error "unreached", fun _ => .error "unreached", fun _ => none⟩

/-- The pipeline the program actually wires into the scheduler, over the
never-reached collaborator. -/
def pipeTriv : Pipe := fun a b => AlbumGenresPure netTriv a b

/-- A pipeline stub resolving every key to one genre. -/
def pipeRock : Pipe := fun _ _ => some (some ["Rock"], none)

/-- A sample non-sentinel record. -/
def aaSample : artistAlbum := ⟨"a", "b", "a - b"⟩

/-! ## Generic list lemmas -/

theorem countP_set_add {α : Type} (p : α → Bool) :
    ∀ (l : List α) (i : Nat) (a : α) (h : i < l.length),
      (l.set i a).countP p + (if p (l.get ⟨i, h⟩) then 1 else 0)
        = l.countP p + (if p a then 1 else 0) := by
  intro l
  induction l with
  | nil => intro i a h; exact absurd h (Nat.not_lt_zero i)
  | cons b t ih =>
    intro i a h
    cases i with
    | zero =>
      simp only [List.set, List.countP_cons, List.get]
      by_cases hpa : p a <;> by_cases hpb : p b <;> simp [hpa, hpb]
    | succ i =>
      simp only [List.set, List.countP_cons, List.get]
      have := ih i a (Nat.lt_of_succ_lt_succ h)
      omega

theorem two_le_countP {α : Type} (p : α → Bool) :
    ∀ (l : List α) (i j : Nat) (hi : i < l.length) (hj : j < l.length),
      i ≠ j → p (l.get ⟨i, hi⟩) = true → p (l.get ⟨j, hj⟩) = true →
      2 ≤ l.countP p := by
  intro l
  induction l with
  | nil => intro i j hi; exact absurd hi (Nat.not_lt_zero i)
  | cons b t ih =>
    intro i j hi hj hne h1 h2
    cases i with
    | zero =>
      cases j with
      | zero => exact absurd rfl hne
      | succ j =>
        simp only [List.get] at h1 h2
        have hpos : 0 < t.countP p :=
          List.countP_pos_iff.mpr ⟨_, List.get_mem t j _, h2⟩
        have hc : (b :: t).countP p = t.countP p + 1 := by
          rw [List.countP_cons, h1]; simp
        omega
    | succ i =>
      cases j with
      | zero =>
        simp only [List.get] at h1 h2
        have hpos : 0 < t.countP p :=
          List.countP_pos_iff.mpr ⟨_, List.get_mem t i _, h1⟩
        have hc : (b :: t).countP p = t.countP p + 1 := by
          rw [List.countP_cons, h2]; simp
        omega
      | succ j =>
        simp only [List.get] at h1 h2
        have := ih i j (Nat.lt_of_succ_lt_succ hi) (Nat.lt_of_succ_lt_succ hj)
          (fun hc => hne (by rw [hc])) h1 h2
        calc 2 ≤ t.countP p := this
          _ ≤ (b :: t).countP p := by rw [List.countP_cons]; omega

theorem mapO_eq_none_of_mem {α β : Type} (f : α → Option β) :
    ∀ (l : List α) (x : α), x ∈ l → f x = none → mapO f l = none := by
  intro l
  induction l with
  | nil => intro x hx; exact absurd hx (List.not_mem_nil x)
  | cons a t ih =>
    intro x hx hf
    rcases List.mem_cons.mp hx with h | h
    · subst h; simp [mapO, hf]
    · cases hfa : f a with
      | none => simp [mapO, hfa]
      | some b => simp [mapO, hfa, ih x h hf]

/-! ## Lemmas about the split/title embedding -/

theorem splitSp_ne_nil : ∀ l : List Char, splitSp l ≠ [] := by
  intro l
  cases l with
  | nil => simp [splitSp]
  | cons c cs =>
    by_cases hc : c = ' '
    · simp [splitSp, hc]
    · simp only [splitSp, if_neg hc]
      cases splitSp cs <;> simp

theorem splitSp_append_space :
    ∀ l₁ l₂ : List Char, splitSp (l₁ ++ ' ' :: l₂) = splitSp l₁ ++ splitSp l₂ := by
  intro l₁
  induction l₁ with
  | nil => intro l₂; simp [splitSp]
  | cons c cs ih =>
    intro l₂
    by_cases hc : c = ' '
    · simp [splitSp, hc, ih]
    · simp only [List.cons_append, splitSp, if_neg hc, ih]
      cases hcs : splitSp cs with
      | nil => exact absurd hcs (splitSp_ne_nil cs)
      | cons p ps =>
        simp only [List.append_eq]
        rw [ih l₂, hcs]
        simp

theorem mapO_upFirst_of_ne :
    ∀ parts : List (List Char), (∀ p ∈ parts, p ≠ []) →
      mapO upFirst parts = some (parts.map upFirstTotal) := by
  intro parts
  induction parts with
  | nil => intro _; rfl
  | cons p ps ih =>
    intro h
    have hp : p ≠ [] := h p (List.mem_cons_self p ps)
    cases p with
    | nil => exact absurd rfl hp
    | cons c rest =>
      simp [mapO, upFirst, upFirstTotal,
        ih (fun x hx => h x (List.mem_cons_of_mem _ hx))]

theorem title_eq_none_of_empty_part (s : String) (h : [] ∈ splitSp s.data) :
    title s = none := by
  unfold title titleL
  rw [mapO_eq_none_of_mem upFirst (splitSp s.data) [] h rfl]
  rfl

theorem interfaceToStringSlice_jstrs :
    ∀ xs : List String, interfaceToStringSlice (jstrs xs) = some xs := by
  intro xs
  induction xs with
  | nil => rfl
  | cons x t ih =>
    simp only [jstrs, interfaceToStringSlice, List.map_cons, mapO] at ih ⊢
    rw [ih]

theorem albumGenresRun_all_empty {Doc : Type} (net : Net Doc) :
    ∀ l : List String, (∀ v ∈ l, albumGenres net v = some (Except.ok [])) →
      albumGenresRun net l = (some (Except.error ErrNoGenres), l) := by
  intro l
  induction l with
  | nil => intro _; rfl
  | cons v vs ih =>
    intro h
    have hv := h v (List.mem_cons_self v vs)
    simp [albumGenresRun, hv, ih (fun u hu => h u (List.mem_cons_of_mem _ hu))]

theorem albumGenresRun_first_nonempty {Doc : Type} (net : Net Doc) :
    ∀ (vs1 : List String) (v : String) (vs2 : List String) (gs : List String),
      (∀ u ∈ vs1, albumGenres net u = some (Except.ok [])) →
      albumGenres net v = some (Except.ok gs) → gs ≠ [] →
      albumGenresRun net (vs1 ++ v :: vs2) = (some (Except.ok gs), vs1 ++ [v]) := by
  intro vs1
  induction vs1 with
  | nil =>
    intro v vs2 gs _ hv hne
    have hpos : 0 < gs.length := List.length_pos.mpr hne
    simp [albumGenresRun, hv, hpos]
  | cons u us ih =>
    intro v vs2 gs h hv hne
    have hu := h u (List.mem_cons_self u us)
    simp [albumGenresRun, hu,
      ih v vs2 gs (fun x hx => h x (List.mem_cons_of_mem _ hx)) hv hne]

/-! ## Claim C5 — the variant generator -/

/-- C5: for every (artist, album) pair with at least one component
non-empty, `searchVariants` returns exactly the ordered list
"{album} ({artist} album)" (both non-empty), then "{album} (album)" and
"{album}" (album non-empty), then "{artist}" (artist non-empty), with no
deduplication; in particular the two examples of the spec. -/
theorem wgC5_searchVariants :
    (searchVariants "The Beatles" "Abbey Road" =
      ["Abbey Road (The Beatles album)", "Abbey Road (album)", "Abbey Road", "The Beatles"])
    ∧ (searchVariants "" "Nevermind" = ["Nevermind (album)", "Nevermind"])
    ∧ (∀ artist album, artist ≠ "" → album ≠ "" →
        searchVariants artist album =
          [album ++ " (" ++ artist ++ " album)", album ++ " (album)", album, artist])
    ∧ (∀ album, album ≠ "" → searchVariants "" album = [album ++ " (album)", album])
    ∧ (∀ artist, artist ≠ "" → searchVariants artist "" = [artist]) := by
  refine ⟨by decide, by decide, ?_, ?_, ?_⟩
  · intro artist album ha hb
    simp [searchVariants, ha, hb]
  · intro album hb
    simp [searchVariants, hb]
  · intro artist ha
    simp [searchVariants, ha]

/-- Witness for C5 at a concrete pair with both components non-empty. -/
theorem wgC5_searchVariants_w :
    searchVariants "a" "b" = ["b (a album)", "b (album)", "b", "a"] :=
  wgC5_searchVariants.2.2.1 "a" "b" (by decide) (by decide)

/-! ## Claim C9 — the title-casing rule -/

/-- C9: on every string all of whose space-delimited segments are
non-empty, `title` splits on single spaces, upper-cases exactly the first
character of each segment keeping the remainder verbatim, and re-joins
with single spaces; `title "heavy metal" = "Heavy Metal"` and
`title "post-punk" = "Post-punk"`. -/
theorem wgC9_title :
    (∀ s : String, (∀ part ∈ splitSp s.data, part ≠ []) →
      title s = some (List.intercalate [' '] ((splitSp s.data).map upFirstTotal)).asString)
    ∧ title "heavy metal" = some "Heavy Metal"
    ∧ title "post-punk" = some "Post-punk" := by
  refine ⟨?_, by decide, by decide⟩
  intro s h
  unfold title titleL
  rw [mapO_upFirst_of_ne (splitSp s.data) h]
  rfl

/-- Witness for C9 at a concrete two-word string. -/
theorem wgC9_title_w :
    title "ab cd" =
      some (List.intercalate [' '] ((splitSp "ab cd".data).map upFirstTotal)).asString :=
  wgC9_title.1 "ab cd" (by decide)

/-! ## Claim C10 — title panics on empty segments -/

/-- C10: `title` is not total: any input containing an empty
space-delimited segment — the empty string, a leading space, a trailing
space, or two consecutive spaces — makes `part[0:1]` panic (modelled as
`none`), and a scraped tier-1 link text of that shape crashes
`scrapeGenres` (and with it the resolution) instead of producing a value
or an error. -/
theorem wgC10_title_panics :
    (∀ s : String, [] ∈ splitSp s.data → title s = none)
    ∧ title "" = none
    ∧ (∀ s : String, title (" " ++ s) = none)
    ∧ (∀ s : String, title (s ++ " ") = none)
    ∧ (∀ s t : String, title (s ++ "  " ++ t) = none)
    ∧ (∀ d : ScrapeDoc, (∃ x ∈ d.tier1Texts, [] ∈ splitSp x.data) →
        scrapeGenres d = none) := by
  have core : ∀ s : String, [] ∈ splitSp s.data → title s = none :=
    title_eq_none_of_empty_part
  refine ⟨core, by decide, ?_, ?_, ?_, ?_⟩
  · intro s
    apply core
    have : (" " ++ s).data = ' ' :: s.data := by simp
    rw [this]
    have h2 : splitSp (' ' :: s.data) = splitSp ([] : List Char) ++ splitSp s.data :=
      splitSp_append_space [] s.data
    simp [h2, splitSp]
  · intro s
    apply core
    have : (s ++ " ").data = s.data ++ ' ' :: [] := by simp
    rw [this, splitSp_append_space]
    simp [splitSp]
  · intro s t
    apply core
    have : (s ++ "  " ++ t).data = s.data ++ ' ' :: (' ' :: t.data) := by
      simp [String.data_append]
    rw [this, splitSp_append_space]
    have h2 : splitSp (' ' :: t.data) = [] :: splitSp t.data := by simp [splitSp]
    simp [h2]
  · intro d hx
    rcases hx with ⟨x, hmem, hempty⟩
    unfold scrapeGenres
    rw [mapO_eq_none_of_mem title d.tier1Texts x hmem (core x hempty)]

/-- Witness for C10 at the concrete string with a trailing space. -/
theorem wgC10_title_panics_w : title "a " = none :=
  wgC10_title_panics.1 "a " (by decide)

/-! ## Claim C8 — the search-response decoder (corrected) -/

/-- C8 counterexample: a response body that is a JSON array of only two
elements (a string and a string array) is a shape mismatch of the wrong
arity, yet the decoder result is the index-out-of-range panic (`none`),
not a returned decode error. -/
theorem wgC8_decode_cex :
    decodeSearchResponse (Json.arr [Json.str "q", jstrs []]) = none := by
  decide

/-- C8 amended: the decoder returns the 4-tuple for a JSON array whose
first four elements are a string and three string arrays; it returns a
decode error for a non-array body and for wrongly-typed elements; but for
an array of fewer than four elements whose present elements pass their
assertions it panics with an index-out-of-range instead of returning a
decode error. -/
theorem wgC8_decode_amended :
    (∀ q sg sn ur rest,
      decodeSearchResponse (Json.arr (Json.str q :: jstrs sg :: jstrs sn :: jstrs ur :: rest))
        = some (Except.ok ⟨q, sg, sn, ur⟩))
    ∧ (∀ n : Int, decodeSearchResponse (Json.num n)
        = some (Except.error "json cannot unmarshal body into slice"))
    ∧ (decodeSearchResponse Json.null
        = some (Except.error "json cannot unmarshal body into slice"))
    ∧ (∀ j rest, (∀ s, j ≠ Json.str s) →
        decodeSearchResponse (Json.arr (j :: rest))
          = some (Except.error "unable to assert element 0"))
    ∧ (∀ q j1 rest, interfaceToStringSlice j1 = none →
        decodeSearchResponse (Json.arr (Json.str q :: j1 :: rest))
          = some (Except.error "unable to assert element 1"))
    ∧ (decodeSearchResponse (Json.arr []) = none)
    ∧ (∀ q, decodeSearchResponse (Json.arr [Json.str q]) = none)
    ∧ (∀ q sg, decodeSearchResponse (Json.arr [Json.str q, jstrs sg]) = none)
    ∧ (∀ q sg sn, decodeSearchResponse (Json.arr [Json.str q, jstrs sg, jstrs sn]) = none) := by
  refine ⟨?_, fun n => rfl, rfl, ?_, ?_, rfl, fun q => rfl, ?_, ?_⟩
  · intro q sg sn ur rest
    simp [decodeSearchResponse, interfaceToStringSlice_jstrs]
  · intro j rest hj
    cases j with
    | str s => exact absurd rfl (hj s)
    | arr l => rfl
    | num n => rfl
    | bool b => rfl
    | null => rfl
  · intro q j1 rest h1
    simp [decodeSearchResponse, h1]
  · intro q sg
    simp [decodeSearchResponse, interfaceToStringSlice_jstrs]
  · intro q sg sn
    simp [decodeSearchResponse, interfaceToStringSlice_jstrs]

/-- Witness for C8 at a concrete well-shaped body and at a concrete body
whose first element is not a string. -/
theorem wgC8_decode_w :
    decodeSearchResponse (Json.arr [Json.str "q", jstrs ["s"], jstrs [], jstrs ["u"]])
      = some (Except.ok ⟨"q", ["s"], [], ["u"]⟩)
    ∧ decodeSearchResponse (Json.arr [Json.num 7, Json.null])
      = some (Except.error "unable to assert element 0") :=
  ⟨wgC8_decode_amended.1 "q" ["s"] [] ["u"] [],
   wgC8_decode_amended.2.2.2.1 (Json.num 7) [Json.null]
     (fun _ h => Json.noConfusion h)⟩

/-! ## Claim C3 — fetch failures (code bug) -/

/-- C3: under a collaborator whose search succeeds (two result URIs) and
whose page fetch answers HTTP 404, `wikipediaPage` duly returns the fetch
error — but `albumGenres` never checks it: the dropped `err` of line 212
and the `resp.Body` dereference of the nil response on line 213 turn the
first variant-level fetch failure into a panic (`none`), so `AlbumGenres`
does not return the fetch error the spec promises. -/
theorem wgC3_fetch_bug :
    wikipediaPage net404 "u1" =
      Except.error ("failed to open Wikipedia page u1, HTTP status " ++ toString (404 : Int))
    ∧ AlbumGenres net404 "a" "b" = none := by
  exact ⟨rfl, rfl⟩

/-! ## Claim C4 — first non-empty variant wins; empty exhaustion -/

/-- C4: `AlbumGenres` returns the genre list of the first variant (in
generator order) whose pipeline call yields a non-empty list, invoking
`albumGenres` on no later variant (the instrumented trace stops at that
variant); an empty `resultURIs` answer is an empty result, not an error;
and when every variant (or an empty variant list) yields an empty list
the result is exactly `ErrNoGenres`. -/
theorem wgC4_first_nonempty {Doc : Type} (net : Net Doc) (artist album : String) :
    (∀ vs1 v vs2 gs, searchVariants artist album = vs1 ++ v :: vs2 →
      (∀ u ∈ vs1, albumGenres net u = some (Except.ok [])) →
      albumGenres net v = some (Except.ok gs) → gs ≠ [] →
      AlbumGenres net artist album = some (Except.ok gs) ∧
        (albumGenresRun net (searchVariants artist album)).2 = vs1 ++ [v])
    ∧ ((∀ v ∈ searchVariants artist album, albumGenres net v = some (Except.ok [])) →
      AlbumGenres net artist album = some (Except.error ErrNoGenres))
    ∧ (∀ q resp r, net.searchDo q = Except.ok resp → isResponseOK resp = true →
      decodeSearchResponse resp.body = some (Except.ok r) → r.URIs = [] →
      albumGenres net q = some (Except.ok [])) := by
  refine ⟨?_, ?_, ?_⟩
  · intro vs1 v vs2 gs hsplit hpre hv hne
    have hrun := albumGenresRun_first_nonempty net vs1 v vs2 gs hpre hv hne
    constructor
    · unfold AlbumGenres
      rw [hsplit, hrun]
    · rw [hsplit, hrun]
  · intro hall
    unfold AlbumGenres
    rw [albumGenresRun_all_empty net _ hall]
  · intro q resp r hdo hok hdec huris
    unfold albumGenres searchWikipedia
    rw [hdo]
    simp only [hok, if_true, hdec, huris]

/-- Witness for C4: under the zero-result collaborator every variant
yields empty, so the record resolves to `ErrNoGenres`. -/
theorem wgC4_first_nonempty_w :
    AlbumGenres netEmptyURIs "a" "b" = some (Except.error ErrNoGenres) :=
  (wgC4_first_nonempty netEmptyURIs "a" "b").2.1 (by decide)

/-! ## Claim C7 — the stdout emission (corrected) -/

/-- C7 counterexample: a one-record batch whose record is the sentinel
produces zero output lines, not the one (empty) line per input record the
spec promises: the `if g == nil { continue }` guard of line 56 skips the
record entirely. -/
theorem wgC7_output_cex :
    outputLines (multipleAlbumGenres pipeTriv [artistAlbum.mk "" "" ""] [0]).1 = []
    ∧ (multipleAlbumGenres pipeTriv [artistAlbum.mk "" "" ""] [0]).1.length = 1 := by
  decide

/-- C7 amended: the emission prints, in input order, one
"; "-joined line per record whose resolved entry is a non-nil slice;
records whose entry is nil (sentinel/invalid, failed, or no genres found)
are skipped and produce no line at all. -/
theorem wgC7_output_amended :
    ∀ gs : List GoSlice,
      outputLines gs = (gs.filterMap id).map (String.intercalate "; ")
      ∧ (outputLines gs).length = gs.countP Option.isSome := by
  intro gs
  induction gs with
  | nil => exact ⟨rfl, rfl⟩
  | cons g t ih =>
    cases g with
    | none => simpa [outputLines, List.countP_cons] using ih
    | some l =>
      refine ⟨by simp [outputLines, ih.1], ?_⟩
      simp [outputLines, List.countP_cons, ih.2]

/-! ## Scheduler invariant: small step lemmas -/

theorem set_of_get?_eq {α : Type} :
    ∀ (l : List α) (i : Nat) (a : α), l.get? i = some a → l.set i a = l := by
  intro l
  induction l with
  | nil => intro i a h; simp at h
  | cons b t ih =>
    intro i a h
    cases i with
    | zero =>
      simp at h
      simp [List.set, h]
    | succ i =>
      simp at h
      have := ih i a (by simpa using h)
      simp [List.set, this]

theorem countP_set_same {α : Type} (p : α → Bool) (l : List α) (i : Nat) (a : α)
    (h : i < l.length) (hpa : p (l.get ⟨i, h⟩) = p a) :
    (l.set i a).countP p = l.countP p := by
  have := countP_set_add p l i a h
  rw [hpa] at this
  omega

theorem countP_singleton {α : Type} (p : α → Bool) (a : α) :
    List.countP p [a] = if p a then 1 else 0 := by
  simp [List.countP_cons]

theorem lookupA_insertA (k : artistAlbum) (v : GoSlice)
    (t : List (artistAlbum × GoSlice)) (q : artistAlbum) :
    lookupA (insertA k v t) q = if k = q then some v else lookupA t q := rfl

theorem presentT_insertA (k : artistAlbum) (v : GoSlice)
    (t : List (artistAlbum × GoSlice)) (q : artistAlbum) :
    presentT (insertA k v t) q = (decide (k = q) || presentT t q) := by
  unfold presentT
  rw [lookupA_insertA]
  by_cases h : k = q <;> simp [h]

theorem presentT_insertA_mono (k : artistAlbum) (v : GoSlice)
    (t : List (artistAlbum × GoSlice)) (q : artistAlbum)
    (h : presentT t q = true) : presentT (insertA k v t) q = true := by
  rw [presentT_insertA, h, Bool.or_true]

theorem presentT_eq_false_iff (t : List (artistAlbum × GoSlice)) (q : artistAlbum) :
    presentT t q = false ↔ lookupA t q = none := by
  unfold presentT
  cases lookupA t q <;> simp

theorem keys_set_q (st : SchedSt) (as : List artistAlbum) (i : Nat) (u : UnitSt)
    (ph2 : Phase) (hget : st.units.get? i = some u)
    (hkeys : st.units.map UnitSt.q = as) :
    (st.units.set i ⟨u.q, ph2⟩).map UnitSt.q = as := by
  have hm : (st.units.map UnitSt.q).get? i = some u.q := by
    simp only [List.get?_eq_getElem?, List.getElem?_map]
    rw [show st.units[i]? = some u from by simpa using hget]
    rfl
  have h1 : (st.units.set i ⟨u.q, ph2⟩).map UnitSt.q
      = (st.units.map UnitSt.q).set i u.q := by
    simp [List.map_set]
  rw [h1, set_of_get?_eq _ i u.q hm, hkeys]

/-- Preservation for the two skip transitions of the start phase: the
sentinel exit and the already-present exit both only move the unit to
done. -/
theorem schedInv_skip (as : List artistAlbum) (st : SchedSt) (i : Nat) (u : UnitSt)
    (hget : st.units.get? i = some u) (hph : u.ph = Phase.start)
    (hok : u.q = aaEmpty ∨ presentT st.table u.q = true)
    (inv : SchedInv as st) :
    SchedInv as { st with units := st.units.set i ⟨u.q, Phase.done⟩ } := by
  obtain ⟨hi, hgetu⟩ := List.get?_eq_some.mp hget
  refine ⟨?_, ?_, ?_, ?_, ?_⟩
  · exact keys_set_q st as i u Phase.done hget inv.keys
  · intro q
    have hC : cntC { st with units := st.units.set i ⟨u.q, Phase.done⟩ } q = cntC st q := by
      unfold cntC
      exact countP_set_same (pcl q) st.units i ⟨u.q, Phase.done⟩ hi
        (by rw [hgetu]; simp [pcl, hph, Phase.isClaimed])
    have hR : cntR { st with units := st.units.set i ⟨u.q, Phase.done⟩ } q = cntR st q := by
      unfold cntR
      exact countP_set_same (pra q) st.units i ⟨u.q, Phase.done⟩ hi
        (by rw [hgetu]; simp [pra, hph, Phase.isRan])
    rw [hC, hR]
    exact inv.bal q
  · intro q
    have hR : cntR { st with units := st.units.set i ⟨u.q, Phase.done⟩ } q = cntR st q := by
      unfold cntR
      exact countP_set_same (pra q) st.units i ⟨u.q, Phase.done⟩ hi
        (by rw [hgetu]; simp [pra, hph, Phase.isRan])
    rw [hR]
    exact inv.callsEq q
  · exact inv.presentKeys
  · intro u' hu' hdone hne
    rcases List.mem_or_eq_of_mem_set hu' with h | h
    · exact inv.donePresent u' h hdone hne
    · subst h
      rcases hok with h | h
      · exact absurd h hne
      · exact h


theorem countP_set_calc {α : Type} (p : α → Bool) (l : List α) (i : Nat) (a : α)
    (h : i < l.length) (n1 n2 : Nat)
    (h1 : (if p (l.get ⟨i, h⟩) then 1 else 0) = n1)
    (h2 : (if p a then 1 else 0) = n2) :
    (l.set i a).countP p + n1 = l.countP p + n2 := by
  have := countP_set_add p l i a h
  rw [h1, h2] at this
  exact this

/-- Preservation for the test-and-set transition: the unit finds its key
absent, inserts the nil placeholder and moves to claimed. -/
theorem schedInv_claim (as : List artistAlbum) (st : SchedSt) (i : Nat) (u : UnitSt)
    (hget : st.units.get? i = some u) (hph : u.ph = Phase.start)
    (hq : u.q ≠ aaEmpty) (hnp : presentT st.table u.q = false)
    (inv : SchedInv as st) :
    SchedInv as { st with
        table := insertA u.q none st.table
        units := st.units.set i ⟨u.q, Phase.claimed⟩ } := by
  obtain ⟨hi, hgetu⟩ := List.get?_eq_some.mp hget
  have humem : u ∈ st.units := List.get?_mem hget
  have huqas : u.q ∈ as := by
    rw [← inv.keys]
    exact List.mem_map_of_mem UnitSt.q humem
  refine ⟨?_, ?_, ?_, ?_, ?_⟩
  · exact keys_set_q st as i u Phase.claimed hget inv.keys
  · intro q
    have hb := inv.bal q
    simp only [cntC, cntR, cntF] at hb ⊢
    rw [presentT_insertA]
    by_cases hqq : u.q = q
    · subst hqq
      have eC := countP_set_calc (pcl u.q) st.units i ⟨u.q, Phase.claimed⟩ hi 0 1
        (by rw [hgetu]; simp [pcl, hph, Phase.isClaimed])
        (by simp [pcl, Phase.isClaimed])
      have eR := countP_set_calc (pra u.q) st.units i ⟨u.q, Phase.claimed⟩ hi 0 0
        (by rw [hgetu]; simp [pra, hph, Phase.isRan])
        (by simp [pra, Phase.isRan])
      have hb0 : List.countP (pcl u.q) st.units + List.countP (pra u.q) st.units
          + List.countP (fun x => decide (x = u.q)) st.fins = 0 := by
        rw [hnp] at hb
        simpa using hb
      simp only [decide_True, Bool.true_or, if_true]
      omega
    · have eC := countP_set_calc (pcl q) st.units i ⟨u.q, Phase.claimed⟩ hi 0 0
        (by rw [hgetu]; simp [pcl, hph, Phase.isClaimed])
        (by simp [pcl, Phase.isClaimed, hqq])
      have eR := countP_set_calc (pra q) st.units i ⟨u.q, Phase.claimed⟩ hi 0 0
        (by rw [hgetu]; simp [pra, hph, Phase.isRan])
        (by simp [pra, Phase.isRan])
      have hd : decide (u.q = q) = false := by simp [hqq]
      rw [hd, Bool.false_or]
      omega
  · intro q
    have eR := countP_set_calc (pra q) st.units i ⟨u.q, Phase.claimed⟩ hi 0 0
      (by rw [hgetu]; simp [pra, hph, Phase.isRan])
      (by simp [pra, Phase.isRan])
    have hc := inv.callsEq q
    simp only [cntK, cntR, cntF] at hc ⊢
    omega
  · intro q hp
    rw [presentT_insertA] at hp
    rcases Bool.or_eq_true_iff.mp hp with h | h
    · have : u.q = q := by simpa using h
      subst this
      exact ⟨hq, huqas⟩
    · exact inv.presentKeys q h
  · intro u' hu' hdone hne
    rcases List.mem_or_eq_of_mem_set hu' with h | h
    · exact presentT_insertA_mono _ _ _ _ (inv.donePresent u' h hdone hne)
    · subst h
      simp [Phase.isDone] at hdone

/-- Preservation for the pipeline step: a claimed unit performs its
`AlbumGenres` call (recorded in the ghost trace) and moves to ran. -/
theorem schedInv_ran (as : List artistAlbum) (st : SchedSt) (i : Nat) (u : UnitSt)
    (gs : GoSlice) (e : Option GoError)
    (hget : st.units.get? i = some u) (hph : u.ph = Phase.claimed)
    (inv : SchedInv as st) :
    SchedInv as { st with
        calls := st.calls ++ [u.q]
        units := st.units.set i ⟨u.q, Phase.ran gs e⟩ } := by
  obtain ⟨hi, hgetu⟩ := List.get?_eq_some.mp hget
  refine ⟨?_, ?_, ?_, ?_, ?_⟩
  · exact keys_set_q st as i u (Phase.ran gs e) hget inv.keys
  · intro q
    have hb := inv.bal q
    simp only [cntC, cntR, cntF] at hb ⊢
    by_cases hqq : u.q = q
    · subst hqq
      have eC := countP_set_calc (pcl u.q) st.units i ⟨u.q, Phase.ran gs e⟩ hi 1 0
        (by rw [hgetu]; simp [pcl, hph, Phase.isClaimed])
        (by simp [pcl, Phase.isClaimed])
      have eR := countP_set_calc (pra u.q) st.units i ⟨u.q, Phase.ran gs e⟩ hi 0 1
        (by rw [hgetu]; simp [pra, hph, Phase.isRan])
        (by simp [pra, Phase.isRan])
      omega
    · have eC := countP_set_calc (pcl q) st.units i ⟨u.q, Phase.ran gs e⟩ hi 0 0
        (by rw [hgetu]; simp [pcl, hph, Phase.isClaimed, hqq])
        (by simp [pcl, Phase.isClaimed, hqq])
      have eR := countP_set_calc (pra q) st.units i ⟨u.q, Phase.ran gs e⟩ hi 0 0
        (by rw [hgetu]; simp [pra, hph, Phase.isRan, hqq])
        (by simp [pra, Phase.isRan, hqq])
      omega
  · intro q
    have hc := inv.callsEq q
    simp only [cntK, cntR, cntF] at hc ⊢
    rw [List.countP_append]
    by_cases hqq : u.q = q
    · subst hqq
      have eK : List.countP (fun x => decide (x = u.q)) [u.q] = 1 := by simp
      have eR := countP_set_calc (pra u.q) st.units i ⟨u.q, Phase.ran gs e⟩ hi 0 1
        (by rw [hgetu]; simp [pra, hph, Phase.isRan])
        (by simp [pra, Phase.isRan])
      omega
    · have eK : List.countP (fun x => decide (x = q)) [u.q] = 0 := by simp [hqq]
      have eR := countP_set_calc (pra q) st.units i ⟨u.q, Phase.ran gs e⟩ hi 0 0
        (by rw [hgetu]; simp [pra, hph, Phase.isRan, hqq])
        (by simp [pra, Phase.isRan, hqq])
      omega
  · exact inv.presentKeys
  · intro u' hu' hdone hne
    rcases List.mem_or_eq_of_mem_set hu' with h | h
    · exact inv.donePresent u' h hdone hne
    · subst h
      simp [Phase.isDone] at hdone

/-- Preservation for the completion step: a ran unit appends its error (if
any), writes its result into the table and moves to done. -/
theorem schedInv_fin (as : List artistAlbum) (st : SchedSt) (i : Nat) (u : UnitSt)
    (gs : GoSlice) (e : Option GoError)
    (hget : st.units.get? i = some u) (hph : u.ph = Phase.ran gs e)
    (inv : SchedInv as st) :
    SchedInv as { st with
        errs := st.errs ++ (match e with
          | some er => [wrapErr u.q.both er]
          | none => [])
        table := insertA u.q gs st.table
        fins := st.fins ++ [u.q]
        units := st.units.set i ⟨u.q, Phase.done⟩ } := by
  obtain ⟨hi, hgetu⟩ := List.get?_eq_some.mp hget
  have humem : u ∈ st.units := List.get?_mem hget
  have hRpos : 0 < List.countP (pra u.q) st.units :=
    List.countP_pos_iff.mpr ⟨u, humem, by simp [pra, hph, Phase.isRan]⟩
  have hpres : presentT st.table u.q = true := by
    cases hpt : presentT st.table u.q with
    | true => rfl
    | false =>
      exfalso
      have hb := inv.bal u.q
      rw [hpt] at hb
      simp only [cntC, cntR, cntF, Bool.false_eq_true, if_false] at hb
      omega
  refine ⟨?_, ?_, ?_, ?_, ?_⟩
  · exact keys_set_q st as i u Phase.done hget inv.keys
  · intro q
    have hb := inv.bal q
    simp only [cntC, cntR, cntF] at hb ⊢
    rw [List.countP_append, presentT_insertA]
    by_cases hqq : u.q = q
    · subst hqq
      have eC := countP_set_calc (pcl u.q) st.units i ⟨u.q, Phase.done⟩ hi 0 0
        (by rw [hgetu]; simp [pcl, hph, Phase.isClaimed])
        (by simp [pcl, Phase.isClaimed])
      have eR := countP_set_calc (pra u.q) st.units i ⟨u.q, Phase.done⟩ hi 1 0
        (by rw [hgetu]; simp [pra, hph, Phase.isRan])
        (by simp [pra, Phase.isRan])
      have eF : List.countP (fun x => decide (x = u.q)) [u.q] = 1 := by simp
      rw [hpres] at hb
      simp only [decide_True, Bool.true_or, if_true] at hb ⊢
      omega
    · have eC := countP_set_calc (pcl q) st.units i ⟨u.q, Phase.done⟩ hi 0 0
        (by rw [hgetu]; simp [pcl, hph, Phase.isClaimed, hqq])
        (by simp [pcl, Phase.isClaimed, hqq])
      have eR := countP_set_calc (pra q) st.units i ⟨u.q, Phase.done⟩ hi 0 0
        (by rw [hgetu]; simp [pra, hph, Phase.isRan, hqq])
        (by simp [pra, Phase.isRan, hqq])
      have eF : List.countP (fun x => decide (x = q)) [u.q] = 0 := by simp [hqq]
      have hd : decide (u.q = q) = false := by simp [hqq]
      rw [hd, Bool.false_or]
      omega
  · intro q
    have hc := inv.callsEq q
    simp only [cntK, cntR, cntF] at hc ⊢
    rw [List.countP_append]
    by_cases hqq : u.q = q
    · subst hqq
      have eR := countP_set_calc (pra u.q) st.units i ⟨u.q, Phase.done⟩ hi 1 0
        (by rw [hgetu]; simp [pra, hph, Phase.isRan])
        (by simp [pra, Phase.isRan])
      have eF : List.countP (fun x => decide (x = u.q)) [u.q] = 1 := by simp
      omega
    · have eR := countP_set_calc (pra q) st.units i ⟨u.q, Phase.done⟩ hi 0 0
        (by rw [hgetu]; simp [pra, hph, Phase.isRan, hqq])
        (by simp [pra, Phase.isRan, hqq])
      have eF : List.countP (fun x => decide (x = q)) [u.q] = 0 := by simp [hqq]
      omega
  · intro q hp
    rw [presentT_insertA] at hp
    rcases Bool.or_eq_true_iff.mp hp with h | h
    · have : u.q = q := by simpa using h
      subst this
      exact inv.presentKeys u.q hpres
    · exact inv.presentKeys q h
  · intro u' hu' hdone hne
    rcases List.mem_or_eq_of_mem_set hu' with h | h
    · exact presentT_insertA_mono _ _ _ _ (inv.donePresent u' h hdone hne)
    · subst h
      rw [presentT_insertA]
      simp

/-- The invariant holds at batch start. -/
theorem schedInv_init (as : List artistAlbum) : SchedInv as (initSt as) := by
  refine ⟨?_, ?_, ?_, ?_, ?_⟩
  · simp only [initSt]
    induction as with
    | nil => rfl
    | cons a t ih => simp [ih]
  · intro q
    have hC : List.countP (pcl q) (initSt as).units = 0 := by
      rw [List.countP_eq_zero]
      intro u hu
      obtain ⟨aa, _, rfl⟩ := List.mem_map.mp hu
      simp [pcl, Phase.isClaimed]
    have hR : List.countP (pra q) (initSt as).units = 0 := by
      rw [List.countP_eq_zero]
      intro u hu
      obtain ⟨aa, _, rfl⟩ := List.mem_map.mp hu
      simp [pra, Phase.isRan]
    simp only [cntC, cntR, cntF, initSt] at hC hR ⊢
    simp [hC, hR, presentT, lookupA]
  · intro q
    have hR : List.countP (pra q) (initSt as).units = 0 := by
      rw [List.countP_eq_zero]
      intro u hu
      obtain ⟨aa, _, rfl⟩ := List.mem_map.mp hu
      simp [pra, Phase.isRan]
    simp only [cntK, cntR, cntF, initSt] at hR ⊢
    simp [hR]
  · intro q hp
    simp [initSt, presentT, lookupA] at hp
  · intro u hu hdone hne
    obtain ⟨aa, _, rfl⟩ := List.mem_map.mp hu
    simp [Phase.isDone] at hdone

/-- The invariant is preserved by every unit step. -/
theorem schedInv_step (pipe : Pipe) (as : List artistAlbum) (st : SchedSt) (i : Nat)
    (inv : SchedInv as st) : SchedInv as (stepUnit pipe st i) := by
  cases hget : st.units.get? i with
  | none =>
    have hg : st.units[i]? = none := by simpa using hget
    have hstep : stepUnit pipe st i = st := by simp [stepUnit, hg]
    rw [hstep]
    exact inv
  | some u =>
    have hg : st.units[i]? = some u := by simpa using hget
    cases hph : u.ph with
    | start =>
      by_cases hq : u.q = aaEmpty
      · have hstep : stepUnit pipe st i
            = { st with units := st.units.set i ⟨u.q, Phase.done⟩ } := by
          simp [stepUnit, hg, hph, hq]
        rw [hstep]
        exact schedInv_skip as st i u hget hph (Or.inl hq) inv
      · by_cases hpres : presentT st.table u.q = true
        · have hl : (lookupA st.table u.q).isSome = true := hpres
          have hstep : stepUnit pipe st i
              = { st with units := st.units.set i ⟨u.q, Phase.done⟩ } := by
            simp [stepUnit, hg, hph, hq, hl]
          rw [hstep]
          exact schedInv_skip as st i u hget hph (Or.inr hpres) inv
        · have hnp : presentT st.table u.q = false := by
            cases h : presentT st.table u.q with
            | true => exact absurd h hpres
            | false => rfl
          have hl : (lookupA st.table u.q).isSome = false := hnp
          have hstep : stepUnit pipe st i
              = { st with
                    table := insertA u.q none st.table
                    units := st.units.set i ⟨u.q, Phase.claimed⟩ } := by
            simp [stepUnit, hg, hph, hq, hl]
          rw [hstep]
          exact schedInv_claim as st i u hget hph hq hnp inv
    | claimed =>
      cases hpipe : pipe u.q.artist u.q.album with
      | none =>
        have hstep : stepUnit pipe st i = st := by
          simp [stepUnit, hg, hph, hpipe]
        rw [hstep]
        exact inv
      | some r =>
        obtain ⟨gs, e⟩ := r
        have hstep : stepUnit pipe st i
            = { st with
                  calls := st.calls ++ [u.q]
                  units := st.units.set i ⟨u.q, Phase.ran gs e⟩ } := by
          simp [stepUnit, hg, hph, hpipe]
        rw [hstep]
        exact schedInv_ran as st i u gs e hget hph inv
    | ran gs e =>
      have hstep : stepUnit pipe st i
          = { st with
                errs := st.errs ++ (match e with
                  | some er => [wrapErr u.q.both er]
                  | none => [])
                table := insertA u.q gs st.table
                fins := st.fins ++ [u.q]
                units := st.units.set i ⟨u.q, Phase.done⟩ } := by
        simp only [stepUnit, hget, hph]
        cases e <;> rfl
      rw [hstep]
      exact schedInv_fin as st i u gs e hget hph inv
    | done =>
      have hstep : stepUnit pipe st i = st := by
        simp [stepUnit, hg, hph]
      rw [hstep]
      exact inv

/-- The invariant holds in every reachable state of a batch. -/
theorem schedInv_run (pipe : Pipe) (as : List artistAlbum) (sched : List Nat) :
    SchedInv as (run pipe as sched) := by
  unfold run
  induction sched using List.reverseRecOn with
  | nil => exact schedInv_init as
  | append_singleton sched i ih =>
    rw [List.foldl_append]
    exact schedInv_step pipe as _ i ih

theorem countP_inFlight_split (l : List UnitSt) (q : artistAlbum) :
    l.countP (pif q) = l.countP (pcl q) + l.countP (pra q) := by
  induction l with
  | nil => rfl
  | cons u t ih =>
    rw [List.countP_cons, List.countP_cons, List.countP_cons]
    have hsplit : (if pif q u then 1 else 0)
        = (if pcl q u then 1 else 0) + (if pra q u then 1 else 0) := by
      cases hph : u.ph <;> by_cases hq : u.q = q <;>
        simp [pif, pcl, pra, Phase.inFlight, Phase.isClaimed, Phase.isRan, hph, hq]
    omega

/-! ## Claim C1 — at most one in-flight lookup per key; exactly one
pipeline execution per distinct non-sentinel key -/

/-- C1: in every reachable state of every schedule, no two distinct units
are simultaneously in flight (between the mutex-guarded test-and-set and
the result write) for the same record; and once every unit has finished,
the `AlbumGenres` pipeline has executed exactly once for every distinct
non-sentinel record of the batch — duplicates cause no extra execution —
and zero times for the sentinel and for absent records. -/
theorem wgC1_dedup (pipe : Pipe) (as : List artistAlbum) (sched : List Nat) :
    (∀ (i j : Nat) (hi : i < (run pipe as sched).units.length)
        (hj : j < (run pipe as sched).units.length), i ≠ j →
        ((run pipe as sched).units.get ⟨i, hi⟩).ph.inFlight = true →
        ((run pipe as sched).units.get ⟨j, hj⟩).ph.inFlight = true →
        ((run pipe as sched).units.get ⟨i, hi⟩).q
          ≠ ((run pipe as sched).units.get ⟨j, hj⟩).q)
    ∧ (allDone (run pipe as sched) = true →
        ∀ q : artistAlbum, cntK (run pipe as sched) q
          = if q ≠ aaEmpty ∧ q ∈ as then 1 else 0) := by
  have inv := schedInv_run pipe as sched
  constructor
  · intro i j hi hj hne hfi hfj hqeq
    have hb := inv.bal ((run pipe as sched).units.get ⟨i, hi⟩).q
    simp only [cntC, cntR, cntF] at hb
    have hsum :
        List.countP (pcl ((run pipe as sched).units.get ⟨i, hi⟩).q) (run pipe as sched).units
          + List.countP (pra ((run pipe as sched).units.get ⟨i, hi⟩).q)
              (run pipe as sched).units ≤ 1 := by
      cases hp : presentT (run pipe as sched).table
          ((run pipe as sched).units.get ⟨i, hi⟩).q with
      | true => rw [hp, if_pos rfl] at hb; omega
      | false => rw [hp, if_neg (by simp)] at hb; omega
    have htwo : 2 ≤ List.countP (pif ((run pipe as sched).units.get ⟨i, hi⟩).q)
        (run pipe as sched).units := by
      refine two_le_countP _ _ i j hi hj hne ?_ ?_
      · simp only [List.get_eq_getElem] at hfi ⊢
        simp [pif, hfi]
      · simp only [List.get_eq_getElem] at hfj hqeq ⊢
        simp [pif, hfj, hqeq]
    rw [countP_inFlight_split] at htwo
    omega
  · intro hdone q
    have hall : ∀ u ∈ (run pipe as sched).units, u.ph.isDone = true :=
      fun u hu => List.all_eq_true.mp hdone u hu
    have hC : List.countP (pcl q) (run pipe as sched).units = 0 := by
      rw [List.countP_eq_zero]
      intro u hu
      have hd := hall u hu
      cases hph : u.ph <;> simp [hph, Phase.isDone, pcl, Phase.isClaimed] at hd ⊢
    have hR : List.countP (pra q) (run pipe as sched).units = 0 := by
      rw [List.countP_eq_zero]
      intro u hu
      have hd := hall u hu
      cases hph : u.ph <;> simp [hph, Phase.isDone, pra, Phase.isRan] at hd ⊢
    have hb := inv.bal q
    have hc := inv.callsEq q
    simp only [cntC, cntR, cntF, cntK] at hb hc ⊢
    by_cases hq : q ≠ aaEmpty ∧ q ∈ as
    · rw [if_pos hq]
      have hpres : presentT (run pipe as sched).table q = true := by
        obtain ⟨u, hu, hequ⟩ := List.mem_map.mp (by rw [inv.keys]; exact hq.2)
        have := inv.donePresent u hu (hall u hu) (by rw [hequ]; exact hq.1)
        rw [hequ] at this
        exact this
      rw [hpres, if_pos rfl] at hb
      omega
    · rw [if_neg hq]
      have hpres : presentT (run pipe as sched).table q = false := by
        cases h : presentT (run pipe as sched).table q with
        | false => rfl
        | true =>
          obtain ⟨h1, h2⟩ := inv.presentKeys q h
          exact absurd ⟨h1, h2⟩ hq
      rw [hpres] at hb
      simp only [Bool.false_eq_true, if_false] at hb
      omega

/-- Witness for C1: a batch of two identical records, fully scheduled,
counts exactly one pipeline execution for the duplicated key. -/
theorem wgC1_dedup_w :
    cntK (run pipeRock [aaSample, aaSample] [0, 0, 0, 1]) aaSample
      = if aaSample ≠ aaEmpty ∧ aaSample ∈ [aaSample, aaSample] then 1 else 0 :=
  (wgC1_dedup pipeRock [aaSample, aaSample] [0, 0, 0, 1]).2 (by decide) aaSample

/-! ## Claim C2 — output length, order and duplicate sharing -/

/-- C2: for every batch and schedule, `multipleAlbumGenres` returns one
entry per input record, positionally: entry `i` is exactly the resolution
table read at record `i` (so the output has the input length and order),
and any two positions holding the same record read the same resolved
entry. -/
theorem wgC2_positional (pipe : Pipe) (as : List artistAlbum) (sched : List Nat) :
    ((multipleAlbumGenres pipe as sched).1.length = as.length)
    ∧ (∀ i : Nat, (multipleAlbumGenres pipe as sched).1.get? i
        = (as.get? i).map
            (fun aa => (lookupA (run pipe as sched).table aa).getD none))
    ∧ (∀ i j : Nat, as.get? i = as.get? j →
        (multipleAlbumGenres pipe as sched).1.get? i
          = (multipleAlbumGenres pipe as sched).1.get? j) := by
  have key : ∀ i : Nat, (multipleAlbumGenres pipe as sched).1.get? i
      = (as.get? i).map
          (fun aa => (lookupA (run pipe as sched).table aa).getD none) := by
    intro i
    simp [multipleAlbumGenres]
  exact ⟨by simp [multipleAlbumGenres], key,
    fun i j h => by rw [key i, key j, h]⟩

/-- Witness for C2: the two positions of a duplicated record read the same
entry. -/
theorem wgC2_positional_w :
    (multipleAlbumGenres pipeRock [aaSample, aaSample] [0, 0, 0, 1]).1.get? 0
      = (multipleAlbumGenres pipeRock [aaSample, aaSample] [0, 0, 0, 1]).1.get? 1 :=
  (wgC2_positional pipeRock [aaSample, aaSample] [0, 0, 0, 1]).2.2 0 1 (by decide)

/-! ## Claim C6 — which records are skipped (corrected) -/

/-- C6 counterexample: the CLI token " - " parses to a record with empty
artist and album but rawKey " - "; the scheduler does not skip it: the run
inserts a table entry for it and contributes a NoGenresFound error,
contradicting the claim that any record with empty artist and album is
skipped entirely regardless of its rawKey. -/
theorem wgC6_sentinel_cex :
    artistAlbumsFromCLI [" - "] = [⟨"", "", " - "⟩]
    ∧ (run pipeTriv [⟨"", "", " - "⟩] [0, 0, 0]).errs = [wrapErr " - " ErrNoGenres]
    ∧ presentT (run pipeTriv [⟨"", "", " - "⟩] [0, 0, 0]).table ⟨"", "", " - "⟩ = true := by
  exact ⟨by decide, by decide, by decide⟩

/-- C6 amended: only the full zero record (artist, album AND rawKey all
empty) is skipped entirely — in every reachable state of every schedule
the zero record is never in the table and the pipeline never executes for
it; a record with empty artist and album but non-empty rawKey is instead
processed: it performs no network call (its variant list is empty) but
inserts a table entry and contributes a NoGenresFound error, as the
concrete " - " batch shows. -/
theorem wgC6_sentinel_amended (pipe : Pipe) (as : List artistAlbum) (sched : List Nat) :
    (lookupA (run pipe as sched).table aaEmpty = none)
    ∧ cntK (run pipe as sched) aaEmpty = 0
    ∧ (run pipeTriv [⟨"", "", " - "⟩] [0, 0, 0]).errs = [wrapErr " - " ErrNoGenres]
    ∧ presentT (run pipeTriv [⟨"", "", " - "⟩] [0, 0, 0]).table ⟨"", "", " - "⟩ = true := by
  have inv := schedInv_run pipe as sched
  have hnp : presentT (run pipe as sched).table aaEmpty = false := by
    cases h : presentT (run pipe as sched).table aaEmpty with
    | false => rfl
    | true => exact absurd rfl (inv.presentKeys aaEmpty h).1
  refine ⟨?_, ?_, by decide, by decide⟩
  · exact (presentT_eq_false_iff _ _).mp hnp
  · have hb := inv.bal aaEmpty
    have hc := inv.callsEq aaEmpty
    rw [hnp, if_neg (by simp)] at hb
    simp only [cntC, cntR, cntF, cntK] at hb hc ⊢
    omega
